import Mathlib

/-!
Verification development for the outlook-mail-responder repository.

Shallow embedding of the three core components:
* the draft sanitizer `sanitize_response` (src/ollama_service.py, duplicated
  in src/user.py) — modelled on `List Char`, one Lean function per regex pass;
* the availability engine `find_available_slots` (src/emailai.py, duplicated
  in src/user.py) — modelled over integer timestamps (seconds);
* the authenticated Gateway `MSGraphAPI.request` (src/ms_graph.py) — modelled
  with explicit state passing for the token and an oracle for HTTP outcomes.
-/

namespace OutlookResponder

/-! ## Sanitizer: character-level model of `sanitize_response`

Python text is a sequence of characters; we use `List Char`.  `\s` in the
source regexes is Python's whitespace class (modelled for the ASCII range,
which is all the sanitizer's own patterns ever introduce). -/

/-- Backtick character (code 96), written via `Char.ofNat`. -/
def btick : Char := Char.ofNat 96

/-- Python regex `\s` on the ASCII range: space, tab, newline, carriage
return, vertical tab (11), form feed (12). -/
def isWS (c : Char) : Bool :=
  c == ' ' || c == '\t' || c == '\n' || c == '\r' || c == Char.ofNat 11 || c == Char.ofNat 12

/-- `text.split("\n")` from Python: split into lines at each newline.
`"".split("\n") == [""]`, and a trailing newline yields a final empty line. -/
def splitLines : List Char → List (List Char)
  | [] => [[]]
  | c :: cs =>
    if c == '\n' then [] :: splitLines cs
    else
      match splitLines cs with
      | [] => [[c]]
      | l :: ls => (c :: l) :: ls

/-- `"\n".join(lines)` from Python. -/
def joinLines : List (List Char) → List Char
  | [] => []
  | [l] => l
  | l :: ls => l ++ '\n' :: joinLines ls

/-- A line matched by the start of `^--+\s*\n`: two or more dashes followed
only by whitespace to the end of the line. -/
def isDashLine (l : List Char) : Bool :=
  2 ≤ (l.takeWhile (fun c => c == '-')).length && (l.dropWhile (fun c => c == '-')).all isWS

/-- A line consisting only of whitespace (possibly empty); such lines are
absorbed by the greedy `\s*` of the signature pattern. -/
def isBlankLine (l : List Char) : Bool := l.all isWS

/-- State of the line scan implementing
`re.sub(r"^--+\s*\n.*$", "", text, flags=re.MULTILINE)`. -/
inductive SigState where
  | normal : SigState
  | consuming : SigState
deriving DecidableEq

/-- Line-level model of `re.sub(r"^--+\s*\n.*$", "", text, flags=re.MULTILINE)`.
A match starts at a line made of two or more dashes plus trailing whitespace
that is followed by at least one more line; the greedy `\s*` then absorbs any
run of whitespace-only lines up to its last newline, and `.*$` (no DOTALL)
absorbs exactly one further line's content, leaving that line's terminating
newline in place — hence the empty line `[]` emitted where the match ended.
Scanning then resumes after the match. -/
def sigPass : SigState → List (List Char) → List (List Char)
  | _, [] => []
  | SigState.normal, l :: rest =>
    if isDashLine l && !rest.isEmpty then sigPass SigState.consuming rest
    else l :: sigPass SigState.normal rest
  | SigState.consuming, x :: rest =>
    if isBlankLine x && !rest.isEmpty then sigPass SigState.consuming rest
    else [] :: sigPass SigState.normal rest

/-- The signature-stripping pass of `sanitize_response` (first `re.sub`). -/
def removeSig (ls : List (List Char)) : List (List Char) :=
  sigPass SigState.normal ls

/-- The line list contains a line where the signature pattern matches:
a dash line that is followed by at least one further line. -/
def hasSigTrigger : List (List Char) → Bool
  | [] => false
  | l :: rest => (isDashLine l && !rest.isEmpty) || hasSigTrigger rest

/-- The literal opening fence `"```email"` of the second `re.sub`. -/
def emailFence : List Char := String.toList "```email"

/-- `re.sub(r"^```email\s*", "", text)`: without MULTILINE, `^` anchors only
at the start of the string, so at most the leading fence plus the following
whitespace run is removed. -/
def stripLeadingFence (s : List Char) : List Char :=
  if emailFence.isPrefixOf s then (s.drop 8).dropWhile isWS else s

/-- Whether the whole remaining text is three backticks followed only by
whitespace — exactly the suffixes matched by `` ```\s*$ `` (no MULTILINE,
so the pattern must reach the end of the string). -/
def isFenceToEnd : List Char → Bool
  | a :: b :: c :: rest => a == btick && b == btick && c == btick && rest.all isWS
  | _ => false

/-- `re.sub(r"```\s*$", "", text)`: removes from the leftmost position where
three backticks are followed only by whitespace through the end of the text
(at most one such non-overlapping match exists). -/
def stripTrailingFence : List Char → List Char
  | [] => []
  | c :: cs => if isFenceToEnd (c :: cs) then [] else c :: stripTrailingFence cs

/-- Whether `` ```\s*$ `` matches somewhere in the text. -/
def hasTrailingFence : List Char → Bool
  | [] => false
  | c :: cs => isFenceToEnd (c :: cs) || hasTrailingFence cs

/-- ASCII lowercasing, the effect of `re.IGNORECASE` on the sanitizer's
ASCII-only greeting pattern. -/
def lowerChar (c : Char) : Char :=
  if 'A' ≤ c ∧ c ≤ 'Z' then Char.ofNat (c.toNat + 32) else c

/-- The alternatives of the greeting pattern
`^(dear|hello|hi|greetings|good (morning|afternoon|evening))`. -/
def greetWords : List (List Char) :=
  [String.toList "dear", String.toList "hello", String.toList "hi",
   String.toList "greetings", String.toList "good morning",
   String.toList "good afternoon", String.toList "good evening"]

/-- `re.match` of the greeting pattern against a line, case-insensitively:
an unanchored-at-the-right character-prefix test (no word boundary). -/
def isGreeting (l : List Char) : Bool :=
  greetWords.any (fun w => w.isPrefixOf (l.map lowerChar))

/-- The greeting-deduplication loop of `sanitize_response`: `seen` is the
`seen_greeting` flag; a greeting-matching line is kept only if no greeting
line has been seen before, every other line is kept. -/
def dedupAux : Bool → List (List Char) → List (List Char)
  | _, [] => []
  | seen, l :: rest =>
    if isGreeting l then
      if seen then dedupAux seen rest else l :: dedupAux true rest
    else l :: dedupAux seen rest

/-- The greeting-deduplication pass of `sanitize_response`. -/
def dedupGreetings (ls : List (List Char)) : List (List Char) :=
  dedupAux false ls

/-- `sanitize_response` from src/ollama_service.py (identical copy in
src/user.py): signature strip, leading fence strip, trailing fence strip,
greeting dedup — in that order. -/
def sanitizeResponse (s : List Char) : List Char :=
  let t1 := joinLines (removeSig (splitLines s))
  let t2 := stripLeadingFence t1
  let t3 := stripTrailingFence t2
  joinLines (dedupGreetings (splitLines t3))

/-! ## Availability engine: single-day sweep of `find_available_slots`

Timestamps are integers in seconds (`datetime` values are exact to the
microsecond; whole seconds suffice for the claims).  The source compares
`(b - a).total_seconds() / 60 >= min_duration_minutes`, which for these
magnitudes is the exact comparison `b - a >= 60 * min_duration_minutes`. -/

/-- A half-open-by-usage time interval: `lo` start, `hi` end, in seconds. -/
structure Ivl where
  lo : Int
  hi : Int
deriving DecidableEq, Repr

/-- The per-event sweep loop shared by both `find_available_slots` variants
(src/emailai.py and src/user.py): `cursor` is `check_time`; for each busy
event in order a slot `(cursor, event.start)` is emitted when the gap is at
least `minDur` minutes, then `cursor = max(cursor, event.end)`.  Returns the
emitted slots and the final cursor. -/
def sweepGo (minDur : Int) : Int → List Ivl → List Ivl × Int
  | cursor, [] => ([], cursor)
  | cursor, e :: rest =>
    let emitted := if 60 * minDur ≤ e.lo - cursor then [Ivl.mk cursor e.lo] else []
    let r := sweepGo minDur (max cursor e.hi) rest
    (emitted ++ r.1, r.2)

/-- One day's slot computation of `find_available_slots`: the sweep over the
day's sorted busy events followed by the trailing `(cursor, day_end)` slot
when at least `minDur` minutes remain. -/
def sweepDay (dayStart dayEnd minDur : Int) (events : List Ivl) : List Ivl :=
  let r := sweepGo minDur dayStart events
  r.1 ++ (if 60 * minDur ≤ dayEnd - r.2 then [Ivl.mk r.2 dayEnd] else [])

/-- Day processing in `MicrosoftCalendarTool.find_available_slots`
(src/emailai.py lines 210-217): skip the day when `datetime.now() > day_end`;
advance `day_start` to now when `day_start < now < day_end` (strict
comparisons in the source); then sweep.  The repeated `datetime.now()` calls
are modelled as the single instant `now`. -/
def processDayCalendarTool (now dayStart dayEnd minDur : Int)
    (events : List Ivl) : List Ivl :=
  if dayEnd < now then []
  else
    let ds := if dayStart < now ∧ now < dayEnd then now else dayStart
    sweepDay ds dayEnd minDur events

/-- `find_available_slots` from src/user.py (lines 186-283).  The module
imports `from datetime import datetime, timedelta` (line 3), binding the
name `datetime` to the class, yet the function body evaluates
`datetime.datetime.now()` (line 199) — an attribute access that fails on
the class object — so every call raises `AttributeError` before the day
loop starts; the function never returns a slot list and never emits a
slot.  Modelled as the always-failing computation. -/
def findAvailableSlotsUser (_daysAhead _durationMinutes : Nat) : Except String (List Ivl) :=
  Except.error "AttributeError: type object datetime has no attribute datetime"

/-- The gap decomposition of `[s, e]` induced by a sorted busy list: the gap
before the first busy interval, then recursively the gaps after it.  Used to
state what the sweep emits. -/
def gapsOf (s e : Int) : List Ivl → List Ivl
  | [] => [Ivl.mk s e]
  | b :: rest => Ivl.mk s b.lo :: gapsOf b.hi e rest

/-- The busy list is sorted, pairwise non-overlapping, with well-formed
intervals, and lies within `[s, e]` (decidable chain condition). -/
def chainB (s e : Int) : List Ivl → Bool
  | [] => decide (s ≤ e)
  | b :: rest => decide (s ≤ b.lo) && decide (b.lo ≤ b.hi) && chainB b.hi e rest

/-- A time `t` lies in the half-open span of some interval of the list. -/
def coversPt (ivls : List Ivl) (t : Int) : Bool :=
  ivls.any (fun i => decide (i.lo ≤ t) && decide (t < i.hi))

/-! ## Authenticated Gateway: `MSGraphAPI.request` (src/ms_graph.py)

The HTTP layer is an oracle `responses : Nat → HttpOutcome` giving the
outcome of the n-th attempt; tokens are numbers, `freshTok n` being the token
produced by the n-th renewal (`_get_token`).  `upt` is the
`user_provided_token` flag set in `__init__` from `token is not None`. -/

/-- Outcome of one `requests.request` + `raise_for_status` round trip. -/
inductive HttpOutcome where
  | ok : HttpOutcome
  | http : Nat → HttpOutcome
  | transport : HttpOutcome
deriving DecidableEq

/-- What `MSGraphAPI.request` logs, abstracted.  `tracebackError` stands for
`logging.error(traceback.format_exc())`; for an `HTTPError` raised by
`raise_for_status` the traceback text carries the failing URL (hence the
endpoint) and the status code, and for a transport exception the URL but no
status. -/
inductive LogEntry where
  | tracebackError : String → Option Nat → LogEntry
  | userTokenExpired : LogEntry
  | refreshInfo : LogEntry
deriving DecidableEq

/-- Observable result of one `MSGraphAPI.request` call: whether a response
object (vs `None`) was returned, how many times the credential was renewed,
how many HTTP attempts were made, the token held afterwards, the retry
budget left when the call returned, and the log written. -/
structure ReqResult where
  returnedResponse : Bool
  renewals : Nat
  attempts : Nat
  finalToken : Nat
  retriesLeft : Nat
  log : List LogEntry
deriving DecidableEq

/-- `MSGraphAPI.request` (src/ms_graph.py lines 48-80), with the attempt
counter and renewal counter threaded explicitly.  On `HTTPError` with status
401 and `retries > 0`: a user-provided token fails immediately; otherwise
`_refresh_token_if_expired` replaces the token and the request is re-issued
with `retries - 1`.  Any other `HTTPError`, a 401 with exhausted budget, or
a transport exception logs the traceback and returns `None`. -/
def request (endpoint : String) (upt : Bool) (freshTok : Nat → Nat)
    (responses : Nat → HttpOutcome) : Nat → Nat → Nat → Nat → ReqResult
  | retries, tok, attempt, renews =>
    match responses attempt with
    | HttpOutcome.ok =>
      ⟨true, renews, attempt + 1, tok, retries, []⟩
    | HttpOutcome.http c =>
      match retries with
      | 0 => ⟨false, renews, attempt + 1, tok, 0, [LogEntry.tracebackError endpoint (some c)]⟩
      | r + 1 =>
        if c = 401 then
          if upt then
            ⟨false, renews, attempt + 1, tok, r + 1, [LogEntry.userTokenExpired]⟩
          else
            let res := request endpoint upt freshTok responses
              r (freshTok renews) (attempt + 1) (renews + 1)
            { res with log := LogEntry.refreshInfo :: res.log }
        else ⟨false, renews, attempt + 1, tok, r + 1, [LogEntry.tracebackError endpoint (some c)]⟩
    | HttpOutcome.transport =>
      ⟨false, renews, attempt + 1, tok, retries, [LogEntry.tracebackError endpoint none]⟩

/-- A fresh call of `MSGraphAPI.request`: attempt and renewal counters at
zero, `retries = 1` being the source's default budget. -/
def requestCall (endpoint : String) (upt : Bool) (tok : Nat) (freshTok : Nat → Nat)
    (responses : Nat → HttpOutcome) (retries : Nat) : ReqResult :=
  request endpoint upt freshTok responses retries tok 0 0

/-! ## Header injection and the shared default dict (src/ms_graph.py line 51/58)

`request` declares `headers: Optional[dict] = {}` and runs
`headers.update({"Authorization": f"Bearer {self.token}"})`.  CPython
evaluates the default value once at function definition, so every call that
omits the argument shares one mutable dict, and `update` mutates whichever
dict was received in place.  Dicts are modelled as insertion-ordered
association lists; `dictUpdate` is `dict.update` for a single key. -/

/-- `d.update({k: v})`: replace the value in place if `k` is present,
otherwise append the new entry. -/
def dictUpdate (d : List (String × String)) (k v : String) : List (String × String) :=
  if d.any (fun p => p.1 == k) then d.map (fun p => if p.1 == k then (k, v) else p)
  else d ++ [(k, v)]

/-- Observable effect of the header-injection step of one `request` call. -/
structure HeadersEffect where
  sent : List (String × String)
  newDefault : List (String × String)
  callerDict : Option (List (String × String))
deriving DecidableEq

/-- The header-injection step: `defaultHeaders` is the shared default dict's
current contents, `arg` the caller's dict if one was passed.  With no
argument the shared dict itself is updated (the mutation persists in
`newDefault`); with an argument the caller's dict is mutated in place and
returned in `callerDict`. -/
def injectAuth (defaultHeaders : List (String × String))
    (arg : Option (List (String × String))) (tok : String) : HeadersEffect :=
  match arg with
  | none =>
    let h := dictUpdate defaultHeaders "Authorization" ("Bearer " ++ tok)
    ⟨h, h, none⟩
  | some h0 =>
    let h := dictUpdate h0 "Authorization" ("Bearer " ++ tok)
    ⟨h, defaultHeaders, some h⟩

/-! ## Helper lemmas: headers dictionary -/

/-- Looking a key up in an association-list dict (first match wins, as in a
Python dict where keys are unique). -/
def dictGet (d : List (String × String)) (k : String) : Option String :=
  match d with
  | [] => none
  | p :: rest => if p.1 == k then some p.2 else dictGet rest k

theorem dictGet_append_of_absent (d l : List (String × String)) (k : String)
    (h : d.any (fun p => p.1 == k) = false) : dictGet (d ++ l) k = dictGet l k := by
  induction d with
  | nil => rfl
  | cons p rest ih =>
    rw [List.any_cons, Bool.or_eq_false_iff] at h
    simp [dictGet, h.1, ih h.2]

theorem dictGet_map_update (d : List (String × String)) (k v : String)
    (h : d.any (fun p => p.1 == k) = true) :
    dictGet (d.map (fun p => if p.1 == k then (k, v) else p)) k = some v := by
  induction d with
  | nil => simp at h
  | cons p rest ih =>
    cases hp : (p.1 == k) with
    | false =>
      rw [List.any_cons, hp, Bool.false_or] at h
      simpa [dictGet, hp] using ih h
    | true => simp [dictGet, hp]

theorem dictGet_dictUpdate (d : List (String × String)) (k v : String) :
    dictGet (dictUpdate d k v) k = some v := by
  cases h : d.any (fun p => p.1 == k) with
  | true => simpa [dictUpdate, h] using dictGet_map_update d k v h
  | false =>
    simp only [dictUpdate, h, Bool.false_eq_true, if_false]
    rw [dictGet_append_of_absent d _ k h]
    simp [dictGet]

/-! ## Claim theorems: authenticated Gateway -/

/-- C1: with a self-managed credential and the default retry budget of 1,
a call whose first two HTTP attempts both answer 401 renews the credential
exactly once (one renewal, token replaced by the first fresh token),
re-issues the request exactly once with the budget decremented to 0 (two
attempts in total), and returns a failure (`None`) after the second 401
with no further renewal or retry. -/
theorem C1_single_retry_ceiling (endpoint : String) (tok : Nat) (freshTok : Nat → Nat)
    (responses : Nat → HttpOutcome)
    (h0 : responses 0 = HttpOutcome.http 401) (h1 : responses 1 = HttpOutcome.http 401) :
    requestCall endpoint false tok freshTok responses 1 =
      ⟨false, 1, 2, freshTok 0, 0,
        [LogEntry.refreshInfo, LogEntry.tracebackError endpoint (some 401)]⟩ := by
  simp [requestCall, request, h0, h1]

/-- Witness for C1 at a concrete oracle that always answers 401. -/
theorem C1_single_retry_ceiling_witness :
    requestCall "users" false 7 (fun n => 100 + n) (fun _ => HttpOutcome.http 401) 1 =
      ⟨false, 1, 2, 100, 0,
        [LogEntry.refreshInfo, LogEntry.tracebackError "users" (some 401)]⟩ :=
  C1_single_retry_ceiling "users" 7 (fun n => 100 + n) (fun _ => HttpOutcome.http 401) rfl rfl

/-- C2: with a caller-supplied (externally owned) token, a request whose
first attempt answers 401 fails immediately for every retry budget: no
response is returned, zero renewals are performed, exactly one HTTP attempt
is made, and the stored token is unchanged. -/
theorem C2_external_token_never_renewed (endpoint : String) (tok : Nat)
    (freshTok : Nat → Nat) (responses : Nat → HttpOutcome) (retries : Nat)
    (h0 : responses 0 = HttpOutcome.http 401) :
    (requestCall endpoint true tok freshTok responses retries).returnedResponse = false
    ∧ (requestCall endpoint true tok freshTok responses retries).renewals = 0
    ∧ (requestCall endpoint true tok freshTok responses retries).attempts = 1
    ∧ (requestCall endpoint true tok freshTok responses retries).finalToken = tok := by
  cases retries <;> simp [requestCall, request, h0]

/-- Witness for C2 at a concrete oracle that always answers 401. -/
theorem C2_external_token_never_renewed_witness :
    (requestCall "me/messages" true 42 (fun n => n) (fun _ => HttpOutcome.http 401) 1).returnedResponse = false
    ∧ (requestCall "me/messages" true 42 (fun n => n) (fun _ => HttpOutcome.http 401) 1).renewals = 0
    ∧ (requestCall "me/messages" true 42 (fun n => n) (fun _ => HttpOutcome.http 401) 1).attempts = 1
    ∧ (requestCall "me/messages" true 42 (fun n => n) (fun _ => HttpOutcome.http 401) 1).finalToken = 42 :=
  C2_external_token_never_renewed "me/messages" 42 (fun n => n) (fun _ => HttpOutcome.http 401) 1 rfl

/-- C8: a request whose first attempt is a non-401 HTTP error, or a
transport failure, returns the failure value `None` (distinguishable from
every successful response) after a single attempt, with no renewal, and
logs a traceback entry carrying the endpoint and, for an HTTP error, the
status; the function returns instead of raising, for every retry budget
and for both credential ownership modes. -/
theorem C8_non401_failure_logged (endpoint : String) (upt : Bool) (tok : Nat)
    (freshTok : Nat → Nat) (responses responsesT : Nat → HttpOutcome)
    (retries c : Nat)
    (h0 : responses 0 = HttpOutcome.http c) (hc : c ≠ 401)
    (hT : responsesT 0 = HttpOutcome.transport) :
    requestCall endpoint upt tok freshTok responses retries =
      ⟨false, 0, 1, tok, retries, [LogEntry.tracebackError endpoint (some c)]⟩
    ∧ requestCall endpoint upt tok freshTok responsesT retries =
      ⟨false, 0, 1, tok, retries, [LogEntry.tracebackError endpoint none]⟩ := by
  cases retries <;> simp [requestCall, request, h0, hT, hc]

/-- Witness for C8 with a 503 oracle and a transport-failure oracle. -/
theorem C8_non401_failure_logged_witness :
    requestCall "groups" false 5 (fun n => n) (fun _ => HttpOutcome.http 503) 1 =
      ⟨false, 0, 1, 5, 1, [LogEntry.tracebackError "groups" (some 503)]⟩
    ∧ requestCall "groups" false 5 (fun n => n) (fun _ => HttpOutcome.transport) 1 =
      ⟨false, 0, 1, 5, 1, [LogEntry.tracebackError "groups" none]⟩ :=
  C8_non401_failure_logged "groups" false 5 (fun n => n)
    (fun _ => HttpOutcome.http 503) (fun _ => HttpOutcome.transport) 1 503
    rfl (by decide) rfl

/-- C10: the header-injection step mutates its argument in place — after a
call with a caller-supplied dict, that dict holds the injected
`Authorization: Bearer token` entry — and, because the defaulted parameter
is one shared mutable dict, the entry set during a no-argument call
persists in the shared default, which a later no-argument call starts
from. -/
theorem C10_headers_default_mutation :
    (∀ d h0 tok, (injectAuth d (some h0) tok).callerDict
        = some (dictUpdate h0 "Authorization" ("Bearer " ++ tok))
      ∧ dictGet (dictUpdate h0 "Authorization" ("Bearer " ++ tok)) "Authorization"
        = some ("Bearer " ++ tok))
    ∧ (∀ d tok, (injectAuth d none tok).newDefault
        = dictUpdate d "Authorization" ("Bearer " ++ tok))
    ∧ (∀ tok1 tok2,
        (injectAuth [] none tok1).newDefault = [("Authorization", "Bearer " ++ tok1)]
        ∧ (injectAuth ((injectAuth [] none tok1).newDefault) none tok2).sent
          = [("Authorization", "Bearer " ++ tok2)]) := by
  refine ⟨fun d h0 tok => ⟨rfl, dictGet_dictUpdate h0 _ _⟩, fun d tok => rfl, fun tok1 tok2 => ⟨?_, ?_⟩⟩
  · simp [injectAuth, dictUpdate]
  · simp [injectAuth, dictUpdate]

/-! ## Helper lemmas: availability engine -/

theorem sweepDay_nil (s e m : Int) :
    sweepDay s e m [] = if 60 * m ≤ e - s then [Ivl.mk s e] else [] := by
  simp [sweepDay, sweepGo]

theorem sweepDay_cons (s e m : Int) (b : Ivl) (rest : List Ivl) :
    sweepDay s e m (b :: rest) =
      (if 60 * m ≤ b.lo - s then [Ivl.mk s b.lo] else []) ++ sweepDay (max s b.hi) e m rest := by
  simp [sweepDay, sweepGo, List.append_assoc]

theorem chainB_cons_iff (s e : Int) (b : Ivl) (rest : List Ivl) :
    chainB s e (b :: rest) = true ↔ s ≤ b.lo ∧ b.lo ≤ b.hi ∧ chainB b.hi e rest = true := by
  simp [chainB, Bool.and_eq_true, decide_eq_true_eq, and_assoc]

theorem chainB_le (bs : List Ivl) : ∀ s e : Int, chainB s e bs = true → s ≤ e := by
  induction bs with
  | nil => intro s e h; simpa [chainB, decide_eq_true_eq] using h
  | cons b rest ih =>
    intro s e h
    rw [chainB_cons_iff] at h
    exact le_trans h.1 (le_trans h.2.1 (ih b.hi e h.2.2))

theorem chainB_busy_bounds (bs : List Ivl) : ∀ s e : Int, chainB s e bs = true →
    ∀ b ∈ bs, s ≤ b.lo ∧ b.lo ≤ b.hi ∧ b.hi ≤ e := by
  induction bs with
  | nil => intro s e _ b hb; simp at hb
  | cons b0 rest ih =>
    intro s e h b hb
    rw [chainB_cons_iff] at h
    rcases List.mem_cons.mp hb with hEq | hmem
    · subst hEq
      exact ⟨h.1, h.2.1, chainB_le rest b.hi e h.2.2⟩
    · have hr := ih b0.hi e h.2.2 b hmem
      exact ⟨le_trans h.1 (le_trans h.2.1 hr.1), hr.2.1, hr.2.2⟩

theorem gaps_subset_window (bs : List Ivl) : ∀ s e : Int, chainB s e bs = true →
    ∀ g ∈ gapsOf s e bs, s ≤ g.lo ∧ g.lo ≤ g.hi ∧ g.hi ≤ e := by
  induction bs with
  | nil =>
    intro s e h g hg
    rw [gapsOf, List.mem_singleton] at hg
    subst hg
    exact ⟨le_refl s, by simpa [chainB, decide_eq_true_eq] using h, le_refl e⟩
  | cons b rest ih =>
    intro s e h g hg
    rw [chainB_cons_iff] at h
    rcases List.mem_cons.mp hg with hEq | hmem
    · subst hEq
      refine ⟨le_refl s, h.1, ?_⟩
      exact le_trans h.2.1 (chainB_le rest b.hi e h.2.2)
    · have hr := ih b.hi e h.2.2 g hmem
      exact ⟨le_trans h.1 (le_trans h.2.1 hr.1), hr.2.1, hr.2.2⟩

theorem gaps_busy_cover (bs : List Ivl) : ∀ s e : Int, chainB s e bs = true →
    ∀ t : Int, s ≤ t → t < e →
      (∃ b ∈ bs, b.lo ≤ t ∧ t < b.hi) ∨ (∃ g ∈ gapsOf s e bs, g.lo ≤ t ∧ t < g.hi) := by
  induction bs with
  | nil =>
    intro s e _ t hst hte
    exact Or.inr ⟨Ivl.mk s e, by rw [gapsOf]; exact List.mem_singleton.mpr rfl, hst, hte⟩
  | cons b rest ih =>
    intro s e h t hst hte
    rw [chainB_cons_iff] at h
    rcases lt_or_le t b.lo with hlt | hge
    · exact Or.inr ⟨Ivl.mk s b.lo, List.mem_cons_self _ _, hst, hlt⟩
    · rcases lt_or_le t b.hi with hlt2 | hge2
      · exact Or.inl ⟨b, List.mem_cons_self _ _, hge, hlt2⟩
      · rcases ih b.hi e h.2.2 t hge2 hte with ⟨b2, hb2, hcov⟩ | ⟨g, hg, hcov⟩
        · exact Or.inl ⟨b2, List.mem_cons_of_mem _ hb2, hcov⟩
        · exact Or.inr ⟨g, List.mem_cons_of_mem _ hg, hcov⟩

theorem gaps_busy_disjoint (bs : List Ivl) : ∀ s e : Int, chainB s e bs = true →
    ∀ g ∈ gapsOf s e bs, ∀ b ∈ bs, g.hi ≤ b.lo ∨ b.hi ≤ g.lo := by
  induction bs with
  | nil => intro s e _ g _ b hb; simp at hb
  | cons b0 rest ih =>
    intro s e h g hg b hb
    rw [chainB_cons_iff] at h
    rcases List.mem_cons.mp hg with hgEq | hgmem
    · subst hgEq
      rcases List.mem_cons.mp hb with hbEq | hbmem
      · subst hbEq; exact Or.inl (le_refl _)
      · have hr := chainB_busy_bounds rest b0.hi e h.2.2 b hbmem
        exact Or.inl (le_trans h.2.1 hr.1)
    · rcases List.mem_cons.mp hb with hbEq | hbmem
      · subst hbEq
        have hr := gaps_subset_window rest b.hi e h.2.2 g hgmem
        exact Or.inr hr.1
      · exact ih b0.hi e h.2.2 g hgmem b hbmem

theorem gaps_pairwise (bs : List Ivl) : ∀ s e : Int, chainB s e bs = true →
    (gapsOf s e bs).Pairwise (fun a b => a.hi ≤ b.lo) := by
  induction bs with
  | nil => intro s e _; simp [gapsOf]
  | cons b rest ih =>
    intro s e h
    rw [chainB_cons_iff] at h
    rw [gapsOf]
    refine List.Pairwise.cons ?_ (ih b.hi e h.2.2)
    intro g hg
    have hr := gaps_subset_window rest b.hi e h.2.2 g hg
    exact le_trans h.2.1 hr.1

theorem sweepDay_eq_filter_gaps (bs : List Ivl) : ∀ s e m : Int, chainB s e bs = true →
    sweepDay s e m bs = (gapsOf s e bs).filter (fun g => decide (60 * m ≤ g.hi - g.lo)) := by
  induction bs with
  | nil =>
    intro s e m _
    rw [sweepDay_nil, gapsOf]
    by_cases hc : 60 * m ≤ e - s <;> simp [hc, List.filter]
  | cons b rest ih =>
    intro s e m h
    rw [chainB_cons_iff] at h
    rw [sweepDay_cons, max_eq_right (le_trans h.1 h.2.1), gapsOf, ih b.hi e m h.2.2]
    by_cases hc : 60 * m ≤ b.lo - s <;> simp [hc, List.filter_cons]

theorem sweepGo_cursor_mono (m : Int) (evs : List Ivl) :
    ∀ cursor : Int, cursor ≤ (sweepGo m cursor evs).2 := by
  induction evs with
  | nil => intro cursor; simp [sweepGo]
  | cons e rest ih =>
    intro cursor
    have h1 : cursor ≤ max cursor e.hi := le_max_left _ _
    exact le_trans h1 (by simpa [sweepGo] using ih (max cursor e.hi))

theorem sweepGo_slots_ge (m : Int) (evs : List Ivl) :
    ∀ cursor : Int, ∀ slot ∈ (sweepGo m cursor evs).1, cursor ≤ slot.lo := by
  induction evs with
  | nil => intro cursor slot hs; simp [sweepGo] at hs
  | cons e rest ih =>
    intro cursor slot hs
    simp only [sweepGo, List.mem_append] at hs
    rcases hs with hs | hs
    · rcases ite_eq_or_eq (60 * m ≤ e.lo - cursor) [Ivl.mk cursor e.lo] ([] : List Ivl) with h | h <;>
        rw [h] at hs
      · rw [List.mem_singleton] at hs; subst hs; exact le_refl _
      · simp at hs
    · exact le_trans (le_max_left cursor e.hi) (ih (max cursor e.hi) slot hs)

theorem sweepDay_slots_ge (s e m : Int) (evs : List Ivl) :
    ∀ slot ∈ sweepDay s e m evs, s ≤ slot.lo := by
  intro slot hs
  simp only [sweepDay, List.mem_append] at hs
  rcases hs with hs | hs
  · exact sweepGo_slots_ge m evs s slot hs
  · rcases ite_eq_or_eq (60 * m ≤ e - (sweepGo m s evs).2)
      [Ivl.mk (sweepGo m s evs).2 e] ([] : List Ivl) with h | h <;> rw [h] at hs
    · rw [List.mem_singleton] at hs; subst hs
      exact sweepGo_cursor_mono m evs s
    · simp at hs

/-! ## Claim theorems: availability engine -/

/-- C3 counterexample: for busy list `[(0, 900)]` within window `[0, 2000]`
(seconds) and a 30-minute minimum, the sweep emits no slot at all — the
trailing gap `900..2000` is shorter than 30 minutes — so the point `1500`
of the window is covered neither by a busy interval nor by a slot: the
emitted slots and the busy intervals do not partition the window. -/
theorem C3_partition_counterexample :
    chainB 0 2000 [Ivl.mk 0 900] = true
    ∧ sweepDay 0 2000 30 [Ivl.mk 0 900] = []
    ∧ coversPt ([Ivl.mk 0 900] ++ sweepDay 0 2000 30 [Ivl.mk 0 900]) 1500 = false
    ∧ (0 : Int) ≤ 1500 ∧ (1500 : Int) < 2000 := by
  refine ⟨by decide, by decide, by decide, by decide, by decide⟩

/-- C3 amended: for sorted pairwise non-overlapping busy intervals within
`[s, e]`, the sweep emits exactly the inter-busy gaps of length at least
`60 * m` seconds (`m` minutes); slots are subintervals of the window,
disjoint from every busy interval and from each other; every window point
is in a busy interval, in a slot, or in an omitted gap shorter than `m`
minutes — so slots plus busy intervals cover the window except for the
sub-minimum gaps, rather than partitioning it; the cursor never decreases,
and a busy interval already covered by the cursor (e.g. nested in a prior
one) contributes no slot and no cursor movement. -/
theorem C3_slot_coverage_amended (s e m : Int) (bs : List Ivl)
    (hchain : chainB s e bs = true) (hm : 0 < m) :
    sweepDay s e m bs = (gapsOf s e bs).filter (fun g => decide (60 * m ≤ g.hi - g.lo))
    ∧ (∀ t : Int, s ≤ t → t < e →
        coversPt bs t = true ∨ coversPt (sweepDay s e m bs) t = true
        ∨ ∃ g ∈ gapsOf s e bs, g.hi - g.lo < 60 * m ∧ g.lo ≤ t ∧ t < g.hi)
    ∧ (∀ slot ∈ sweepDay s e m bs, s ≤ slot.lo ∧ slot.lo ≤ slot.hi ∧ slot.hi ≤ e)
    ∧ (∀ slot ∈ sweepDay s e m bs, ∀ b ∈ bs, slot.hi ≤ b.lo ∨ b.hi ≤ slot.lo)
    ∧ (sweepDay s e m bs).Pairwise (fun a b => a.hi ≤ b.lo)
    ∧ (∀ cursor : Int, ∀ evs : List Ivl, cursor ≤ (sweepGo m cursor evs).2)
    ∧ (∀ cursor : Int, ∀ ivl : Ivl, ∀ rest : List Ivl, ivl.lo ≤ ivl.hi → ivl.hi ≤ cursor →
        sweepGo m cursor (ivl :: rest) = sweepGo m cursor rest) := by
  have hchar := sweepDay_eq_filter_gaps bs s e m hchain
  have hmemgap : ∀ slot ∈ sweepDay s e m bs, slot ∈ gapsOf s e bs := by
    intro slot hs
    rw [hchar] at hs
    exact (List.mem_filter.mp hs).1
  refine ⟨hchar, ?_, ?_, ?_, ?_, fun cursor evs => sweepGo_cursor_mono m evs cursor, ?_⟩
  · intro t hst hte
    rcases gaps_busy_cover bs s e hchain t hst hte with ⟨b, hb, h1, h2⟩ | ⟨g, hg, h1, h2⟩
    · refine Or.inl ?_
      simp only [coversPt, List.any_eq_true]
      exact ⟨b, hb, by simp [h1, h2]⟩
    · by_cases hlen : 60 * m ≤ g.hi - g.lo
      · refine Or.inr (Or.inl ?_)
        have : g ∈ sweepDay s e m bs := by
          rw [hchar]
          exact List.mem_filter.mpr ⟨hg, by simpa using hlen⟩
        simp only [coversPt, List.any_eq_true]
        exact ⟨g, this, by simp [h1, h2]⟩
      · exact Or.inr (Or.inr ⟨g, hg, lt_of_not_le hlen, h1, h2⟩)
  · intro slot hs
    exact gaps_subset_window bs s e hchain slot (hmemgap slot hs)
  · intro slot hs b hb
    exact gaps_busy_disjoint bs s e hchain slot (hmemgap slot hs) b hb
  · rw [hchar]
    exact List.Pairwise.filter _ (gaps_pairwise bs s e hchain)
  · intro cursor ivl rest hwf hle
    have h1 : ¬(60 * m ≤ ivl.lo - cursor) := by
      have : ivl.lo - cursor ≤ 0 := by omega
      omega
    have h2 : max cursor ivl.hi = cursor := max_eq_left hle
    simp [sweepGo, h1, h2]

/-- Witness for C3 amended: the characterization conjunct instantiated at
the counterexample's input. -/
theorem C3_slot_coverage_amended_witness :
    sweepDay 0 2000 30 [Ivl.mk 0 900] =
      (gapsOf 0 2000 [Ivl.mk 0 900]).filter (fun g => decide (60 * 30 ≤ g.hi - g.lo)) :=
  (C3_slot_coverage_amended 0 2000 30 [Ivl.mk 0 900] (by decide) (by decide)).1

/-- C4 counterexample: in src/emailai.py the inside check is strict
(`now > day_start and now < day_end`), so at `now = dayEnd` — a moment that
falls inside the claim's closed interval `[dayStart, dayEnd]` and is not
past `dayEnd` — `dayStart` is not advanced to the current moment, the day
is processed, and the emitted slot `(0, 2000)` starts at 0, in the past of
the current moment 2000. -/
theorem C4_past_slots_counterexample :
    processDayCalendarTool 2000 0 2000 1 [] = [Ivl.mk 0 2000]
    ∧ (Ivl.mk 0 2000).lo < 2000 := by
  refine ⟨by decide, by decide⟩

/-- C4 amended: the calendar-tool variant (src/emailai.py) skips a day
entirely when the current moment is strictly past `dayEnd`; when the
current moment lies strictly inside `(dayStart, dayEnd)` the day start is
advanced to it, and every emitted slot starts no earlier than the current
moment; likewise when the current moment is at or before `dayStart` (only
at `now = dayEnd` exactly can a past slot escape, the counterexample).
The src/user.py duplicate raises `AttributeError` on every call before
processing any day, so it never emits any slot at all. -/
theorem C4_day_skip_amended (now dayStart dayEnd m : Int) (events : List Ivl) :
    (dayEnd < now → processDayCalendarTool now dayStart dayEnd m events = [])
    ∧ (dayStart < now → now < dayEnd →
        ∀ slot ∈ processDayCalendarTool now dayStart dayEnd m events, now ≤ slot.lo)
    ∧ (now ≤ dayStart →
        ∀ slot ∈ processDayCalendarTool now dayStart dayEnd m events, now ≤ slot.lo)
    ∧ (∀ daysAhead durationMinutes : Nat,
        ∀ slots : List Ivl, findAvailableSlotsUser daysAhead durationMinutes ≠ Except.ok slots) := by
  refine ⟨fun h => by simp [processDayCalendarTool, h], ?_, ?_, fun _ _ _ => by simp [findAvailableSlotsUser]⟩
  · intro h1 h2 slot hs
    rw [processDayCalendarTool, if_neg (by omega), if_pos ⟨h1, h2⟩] at hs
    exact sweepDay_slots_ge now dayEnd m events slot hs
  · intro h1 slot hs
    by_cases hskip : dayEnd < now
    · rw [processDayCalendarTool, if_pos hskip] at hs
      simp at hs
    · rw [processDayCalendarTool, if_neg hskip, if_neg (by omega)] at hs
      exact le_trans h1 (sweepDay_slots_ge dayStart dayEnd m events slot hs)

/-- Witness for C4 amended: a day whose working window ended at 2000 s is
skipped when the current moment is 3000 s. -/
theorem C4_day_skip_amended_witness :
    processDayCalendarTool 3000 0 2000 1 [] = [] :=
  (C4_day_skip_amended 3000 0 2000 1 []).1 (by decide)

/-! ## Helper lemmas: sanitizer -/

theorem splitLines_ne_nil (s : List Char) : splitLines s ≠ [] := by
  cases s with
  | nil => simp [splitLines]
  | cons c cs =>
    rw [splitLines]
    by_cases hc : c == '\n'
    · simp [hc]
    · simp only [hc, Bool.false_eq_true, if_false]
      cases h : splitLines cs <;> simp

theorem joinLines_cons_of_ne_nil (l : List Char) (ls : List (List Char)) (h : ls ≠ []) :
    joinLines (l :: ls) = l ++ '\n' :: joinLines ls := by
  cases ls with
  | nil => exact absurd rfl h
  | cons l2 ls2 => rfl

theorem joinLines_splitLines (s : List Char) : joinLines (splitLines s) = s := by
  induction s with
  | nil => rfl
  | cons c cs ih =>
    rw [splitLines]
    by_cases hc : c == '\n'
    · rw [if_pos hc, joinLines_cons_of_ne_nil _ _ (splitLines_ne_nil cs), ih]
      simp [beq_iff_eq.mp hc]
    · rw [if_neg hc]
      cases h : splitLines cs with
      | nil => exact absurd h (splitLines_ne_nil cs)
      | cons l ls =>
        cases ls with
        | nil =>
          rw [h] at ih
          simpa [joinLines] using ih
        | cons l2 ls2 =>
          rw [h] at ih
          rw [joinLines_cons_of_ne_nil _ _ (by simp)] at ih ⊢
          simpa using ih

theorem splitLines_no_newline (s : List Char) :
    ∀ l ∈ splitLines s, ∀ c ∈ l, ¬(c = '\n') := by
  induction s with
  | nil => intro l hl c hc; rw [splitLines, List.mem_singleton] at hl; subst hl; simp at hc
  | cons a as ih =>
    intro l hl c hc
    rw [splitLines] at hl
    by_cases ha : a == '\n'
    · rw [if_pos ha, List.mem_cons] at hl
      rcases hl with hl | hl
      · subst hl; simp at hc
      · exact ih l hl c hc
    · rw [if_neg ha] at hl
      cases h : splitLines as with
      | nil => exact absurd h (splitLines_ne_nil as)
      | cons l0 ls =>
        rw [h, List.mem_cons] at hl
        rcases hl with hl | hl
        · subst hl
          rcases List.mem_cons.mp hc with hcEq | hcmem
          · subst hcEq
            intro hEq
            exact ha (by simp [hEq])
          · exact ih l0 (by rw [h]; exact List.mem_cons_self _ _) c hcmem
        · exact ih l (by rw [h]; exact List.mem_cons_of_mem _ hl) c hc

theorem splitLines_of_no_newline (l : List Char) (h : ∀ c ∈ l, ¬(c = '\n')) :
    splitLines l = [l] := by
  induction l with
  | nil => rfl
  | cons c cs ih =>
    rw [splitLines, if_neg (by simpa using h c (List.mem_cons_self _ _)),
      ih (fun c hc => h c (List.mem_cons_of_mem _ hc))]

theorem splitLines_append_newline (l s : List Char) (h : ∀ c ∈ l, ¬(c = '\n')) :
    splitLines (l ++ '\n' :: s) = l :: splitLines s := by
  induction l with
  | nil => simp [splitLines]
  | cons c cs ih =>
    rw [List.cons_append, splitLines, if_neg (by simpa using h c (List.mem_cons_self _ _)),
      ih (fun c hc => h c (List.mem_cons_of_mem _ hc))]

theorem splitLines_joinLines (ls : List (List Char)) (hne : ls ≠ [])
    (h : ∀ l ∈ ls, ∀ c ∈ l, ¬(c = '\n')) : splitLines (joinLines ls) = ls := by
  induction ls with
  | nil => exact absurd rfl hne
  | cons l rest ih =>
    cases rest with
    | nil =>
      simpa [joinLines] using splitLines_of_no_newline l (h l (List.mem_cons_self _ _))
    | cons l2 rest2 =>
      rw [joinLines_cons_of_ne_nil _ _ (by simp),
        splitLines_append_newline l _ (h l (List.mem_cons_self _ _)),
        ih (by simp) (fun l' hl' => h l' (List.mem_cons_of_mem _ hl'))]

theorem sigPass_append_noDash (A rest : List (List Char))
    (hA : A.all (fun l => !isDashLine l) = true) :
    sigPass SigState.normal (A ++ rest) = A ++ sigPass SigState.normal rest := by
  induction A with
  | nil => rfl
  | cons l A ih =>
    rw [List.all_cons, Bool.and_eq_true] at hA
    have hl : isDashLine l = false := by simpa using hA.1
    rw [List.cons_append, sigPass, if_neg (by simp [hl]), ih hA.2]
    simp

theorem sigPass_consuming_blanks (W : List (List Char)) (x : List Char)
    (B : List (List Char)) (hW : W.all (fun l => isBlankLine l) = true)
    (hx : isBlankLine x = false) :
    sigPass SigState.consuming (W ++ (x :: B)) = [] :: sigPass SigState.normal B := by
  induction W with
  | nil => rw [List.nil_append, sigPass, if_neg (by simp [hx])]
  | cons w W ih =>
    rw [List.all_cons, Bool.and_eq_true] at hW
    have hne : W ++ (x :: B) ≠ [] := by cases W <;> simp
    rw [List.cons_append, sigPass, if_pos (by simp [hW.1, hne]), ih hW.2]

theorem sigPass_id_of_noTrigger (ls : List (List Char)) (h : hasSigTrigger ls = false) :
    sigPass SigState.normal ls = ls := by
  induction ls with
  | nil => rfl
  | cons l rest ih =>
    rw [hasSigTrigger, Bool.or_eq_false_iff] at h
    rw [sigPass, if_neg (by simp [h.1]), ih h.2]

theorem stripTrailingFence_id_of_not (s : List Char) (h : hasTrailingFence s = false) :
    stripTrailingFence s = s := by
  induction s with
  | nil => rfl
  | cons c cs ih =>
    rw [hasTrailingFence, Bool.or_eq_false_iff] at h
    rw [stripTrailingFence, if_neg (by simp [h.1]), ih h.2]

theorem dedupAux_cons_greeting (l : List Char) (rest : List (List Char))
    (hg : isGreeting l = true) :
    dedupAux false (l :: rest) = l :: dedupAux true rest := by
  simp [dedupAux, hg]

theorem dedupAux_true_filter (ls : List (List Char)) :
    dedupAux true ls = ls.filter (fun l => !isGreeting l) := by
  induction ls with
  | nil => rfl
  | cons l rest ih =>
    cases hg : isGreeting l with
    | false => simp [dedupAux, hg, List.filter_cons, ih]
    | true => simp [dedupAux, hg, List.filter_cons, ih]

theorem dedupAux_append_free (b : Bool) (A rest : List (List Char))
    (hA : A.all (fun l => !isGreeting l) = true) :
    dedupAux b (A ++ rest) = A ++ dedupAux b rest := by
  induction A with
  | nil => rfl
  | cons l A ih =>
    rw [List.all_cons, Bool.and_eq_true] at hA
    have hl : isGreeting l = false := by simpa using hA.1
    rw [List.cons_append, dedupAux, if_neg (by simp [hl]), ih hA.2]
    simp

theorem dedup_mem (b : Bool) (ls : List (List Char)) :
    ∀ l ∈ dedupAux b ls, l ∈ ls := by
  induction ls generalizing b with
  | nil => intro l hl; simp [dedupAux] at hl
  | cons l0 rest ih =>
    intro l hl
    rw [dedupAux] at hl
    by_cases hg : isGreeting l0
    · rw [if_pos hg] at hl
      cases b with
      | true => exact List.mem_cons_of_mem _ (ih true l (by simpa using hl))
      | false =>
        simp only [Bool.false_eq_true, if_false] at hl
        rcases List.mem_cons.mp hl with hEq | hmem
        · exact hEq ▸ List.mem_cons_self _ _
        · exact List.mem_cons_of_mem _ (ih true l hmem)
    · rw [if_neg hg] at hl
      rcases List.mem_cons.mp hl with hEq | hmem
      · exact hEq ▸ List.mem_cons_self _ _
      · exact List.mem_cons_of_mem _ (ih b l hmem)

theorem dedup_false_ne_nil (ls : List (List Char)) (h : ls ≠ []) :
    dedupAux false ls ≠ [] := by
  cases ls with
  | nil => exact absurd rfl h
  | cons l rest =>
    rw [dedupAux]
    by_cases hg : isGreeting l <;> simp [hg]

theorem dedup_idem (ls : List (List Char)) :
    dedupAux false (dedupAux false ls) = dedupAux false ls := by
  induction ls with
  | nil => rfl
  | cons l rest ih =>
    cases hg : isGreeting l with
    | false => simp [dedupAux, hg, ih]
    | true =>
      have h9 : dedupAux true (dedupAux true rest) = dedupAux true rest := by
        rw [dedupAux_true_filter rest, dedupAux_true_filter, List.filter_filter]
        simp
      rw [dedupAux_cons_greeting l rest hg, dedupAux_cons_greeting l _ hg, h9]

/-- Identity form of `sanitize_response` on text with no remaining
signature match and no fences: only the greeting pass can act. -/
theorem sanitize_eq_dedup_of_clean (y : List Char)
    (h1 : hasSigTrigger (splitLines y) = false)
    (h2 : emailFence.isPrefixOf y = false)
    (h3 : hasTrailingFence y = false) :
    sanitizeResponse y = joinLines (dedupAux false (splitLines y)) := by
  simp only [sanitizeResponse, removeSig, dedupGreetings]
  rw [sigPass_id_of_noTrigger _ h1, joinLines_splitLines]
  simp only [stripLeadingFence, h2, Bool.false_eq_true, if_false]
  rw [stripTrailingFence_id_of_not _ h3]

/-- The line decomposition of any sanitizer output is its greeting-pass
output (the final join and a re-split cancel). -/
theorem sanitize_splitLines (x : List Char) :
    splitLines (sanitizeResponse x) =
      dedupAux false (splitLines (stripTrailingFence (stripLeadingFence
        (joinLines (removeSig (splitLines x)))))) := by
  simp only [sanitizeResponse, dedupGreetings]
  apply splitLines_joinLines
  · exact dedup_false_ne_nil _ (splitLines_ne_nil _)
  · intro l hl c hc
    exact splitLines_no_newline _ l (dedup_mem false _ l hl) c hc

/-! ## Claim theorems: draft sanitizer -/

/-- C5 counterexample: on `"body\n--\nJohn\nDoe"` the sanitizer removes the
dash line and only the single following line (`John`), leaving `Doe` — it
does not remove everything from the dash line through the end of the text,
which would give `"body"` (or `"body\n"`). -/
theorem C5_signature_counterexample :
    sanitizeResponse (String.toList "body\n--\nJohn\nDoe") = String.toList "body\n\nDoe"
    ∧ sanitizeResponse (String.toList "body\n--\nJohn\nDoe") ≠ String.toList "body"
    ∧ sanitizeResponse (String.toList "body\n--\nJohn\nDoe") ≠ String.toList "body\n" := by
  refine ⟨by decide, by decide, by decide⟩

/-- C5 amended: the signature pass removes a line consisting of two or more
dashes (and trailing whitespace) together with any immediately following
whitespace-only lines and the single next non-blank line, replacing them by
one empty line; the text after that line is preserved (up to further,
independent matches) — nothing is removed through the end of the text. -/
theorem C5_signature_amended (A : List (List Char)) (d : List Char)
    (W : List (List Char)) (x : List Char) (B : List (List Char))
    (hA : A.all (fun l => !isDashLine l) = true)
    (hd : isDashLine d = true)
    (hW : W.all (fun l => isBlankLine l) = true)
    (hx : isBlankLine x = false) :
    removeSig (A ++ (d :: (W ++ (x :: B)))) = A ++ ([] :: removeSig B) := by
  simp only [removeSig]
  rw [sigPass_append_noDash A _ hA]
  have hne : W ++ (x :: B) ≠ [] := by cases W <;> simp
  rw [sigPass, if_pos (by simp [hd, hne]), sigPass_consuming_blanks W x B hW hx]

/-- Witness for C5 amended: dash line, two intervening whitespace-only
lines, then `John` — all removed together, `Doe` preserved. -/
theorem C5_signature_amended_witness :
    removeSig ([String.toList "body"] ++ (String.toList "--" ::
        ([[], String.toList "  "] ++ (String.toList "John" :: [String.toList "Doe"])))) =
      [String.toList "body"] ++ ([] :: removeSig [String.toList "Doe"]) :=
  C5_signature_amended [String.toList "body"] (String.toList "--")
    [[], String.toList "  "] (String.toList "John") [String.toList "Doe"]
    (by decide) (by decide) (by decide) (by decide)

/-- C9: the greeting test is an unanchored character-prefix match — lines
beginning with `His`, `Hippos`, `Dearest` classify as greetings — and once
one greeting line has been seen, every later greeting-classified line is
dropped in its entirety (the scan with the flag set keeps exactly the
non-greeting lines); concretely, `"His report is attached."` after
`"Hello team,"` is deleted whole by the sanitizer. -/
theorem C9_unanchored_greeting_match :
    (∀ rest : List (List Char), dedupAux true rest = rest.filter (fun l => !isGreeting l))
    ∧ isGreeting (String.toList "His report is attached.") = true
    ∧ isGreeting (String.toList "Hippos are large animals.") = true
    ∧ isGreeting (String.toList "Dearest colleague,") = true
    ∧ sanitizeResponse (String.toList "Hello team,\nHis report is attached.") =
        String.toList "Hello team," :=
  ⟨dedupAux_true_filter, by decide, by decide, by decide, by decide⟩

/-- C6 counterexample: `"--\nhello a\nmid\nhi b"` has exactly two
greeting-matching lines (`hello a`, `hi b`), but the signature pass deletes
the first of them (the line after the dashes), so the sanitizer output keeps
the SECOND greeting, not the first, drops the first, and does not preserve
the other lines — it is not the text with only the second greeting removed. -/
theorem C6_greeting_dedup_counterexample :
    sanitizeResponse (String.toList "--\nhello a\nmid\nhi b") = String.toList "\nmid\nhi b"
    ∧ (splitLines (String.toList "--\nhello a\nmid\nhi b")).filter (fun l => isGreeting l) =
        [String.toList "hello a", String.toList "hi b"]
    ∧ (splitLines (sanitizeResponse (String.toList "--\nhello a\nmid\nhi b"))).filter
        (fun l => isGreeting l) = [String.toList "hi b"]
    ∧ sanitizeResponse (String.toList "--\nhello a\nmid\nhi b") ≠
        String.toList "--\nhello a\nmid" := by
  refine ⟨by decide, by decide, by decide, by decide⟩

/-- C6 amended: for input text with no signature-pattern match and no code
fences (so those passes are inert), whose lines are
`A ++ [g1] ++ B ++ [g2] ++ C` with `g1`, `g2` the only greeting-matching
lines, the sanitizer keeps `g1` in place, drops `g2` entirely, and preserves
every other line in order — the output has exactly the lines
`A ++ [g1] ++ B ++ C`. -/
theorem C6_greeting_dedup (A B C : List (List Char)) (g1 g2 : List Char)
    (hA : A.all (fun l => !isGreeting l) = true)
    (hB : B.all (fun l => !isGreeting l) = true)
    (hC : C.all (fun l => !isGreeting l) = true)
    (hg1 : isGreeting g1 = true) (hg2 : isGreeting g2 = true)
    (hnl : (A ++ (g1 :: (B ++ (g2 :: C)))).all (fun l => l.all (fun c => !(c == '\n'))) = true)
    (hsig : hasSigTrigger (A ++ (g1 :: (B ++ (g2 :: C)))) = false)
    (hfence1 : emailFence.isPrefixOf (joinLines (A ++ (g1 :: (B ++ (g2 :: C))))) = false)
    (hfence2 : hasTrailingFence (joinLines (A ++ (g1 :: (B ++ (g2 :: C))))) = false) :
    sanitizeResponse (joinLines (A ++ (g1 :: (B ++ (g2 :: C))))) =
      joinLines (A ++ (g1 :: (B ++ C))) := by
  have hne : (A ++ (g1 :: (B ++ (g2 :: C)))) ≠ [] := by
    cases A <;> simp
  have hnl' : ∀ l ∈ (A ++ (g1 :: (B ++ (g2 :: C)))), ∀ c ∈ l, ¬(c = '\n') := by
    intro l hl c hc hEq
    have h1 := List.all_eq_true.mp hnl l hl
    have h2 := List.all_eq_true.mp h1 c hc
    simp [hEq] at h2
  have hsplit : splitLines (joinLines (A ++ (g1 :: (B ++ (g2 :: C))))) =
      A ++ (g1 :: (B ++ (g2 :: C))) :=
    splitLines_joinLines _ hne hnl'
  have hBfilter : B.filter (fun l => !isGreeting l) = B := by
    apply List.filter_eq_self.mpr
    intro l hl
    simpa using List.all_eq_true.mp hB l hl
  have hCfilter : C.filter (fun l => !isGreeting l) = C := by
    apply List.filter_eq_self.mpr
    intro l hl
    simpa using List.all_eq_true.mp hC l hl
  simp only [sanitizeResponse, removeSig, dedupGreetings]
  rw [hsplit, sigPass_id_of_noTrigger _ hsig]
  simp only [stripLeadingFence, hfence1, Bool.false_eq_true, if_false]
  rw [stripTrailingFence_id_of_not _ hfence2, hsplit]
  have hd : dedupAux false (g1 :: (B ++ (g2 :: C))) = g1 :: (B ++ C) := by
    rw [dedupAux_cons_greeting g1 _ hg1, dedupAux_true_filter,
      List.filter_append, hBfilter, List.filter_cons]
    simp [hg2, hCfilter]
  rw [dedupAux_append_free false A (g1 :: (B ++ (g2 :: C))) hA, hd]

/-- Witness for C6 on a five-line text with greetings in lines 2 and 4. -/
theorem C6_greeting_dedup_witness :
    sanitizeResponse (joinLines ([String.toList "a"] ++ (String.toList "Hello Bob," ::
        ([String.toList "b"] ++ (String.toList "Hi again," :: [String.toList "c"]))))) =
      joinLines ([String.toList "a"] ++ (String.toList "Hello Bob," ::
        ([String.toList "b"] ++ [String.toList "c"]))) :=
  C6_greeting_dedup [String.toList "a"] [String.toList "b"] [String.toList "c"]
    (String.toList "Hello Bob,") (String.toList "Hi again,")
    (by decide) (by decide) (by decide) (by decide) (by decide)
    (by decide) (by decide) (by decide) (by decide)

/-- C7: the sanitizer is idempotent on every text whose once-sanitized form
contains no remaining signature match and no remaining fence (the formal
reading of "no second embedded signature/fence"): the signature and fence
passes are then inert on the output, and the greeting pass is idempotent. -/
theorem C7_sanitize_idempotent (x : List Char)
    (h1 : hasSigTrigger (splitLines (sanitizeResponse x)) = false)
    (h2 : emailFence.isPrefixOf (sanitizeResponse x) = false)
    (h3 : hasTrailingFence (sanitizeResponse x) = false) :
    sanitizeResponse (sanitizeResponse x) = sanitizeResponse x := by
  rw [sanitize_eq_dedup_of_clean _ h1 h2 h3, sanitize_splitLines x, dedup_idem]
  simp only [sanitizeResponse, removeSig, dedupGreetings]

/-- Witness for C7: already-clean two-line text is a fixpoint. -/
theorem C7_sanitize_idempotent_witness :
    sanitizeResponse (sanitizeResponse (String.toList "hello\nworld")) =
      sanitizeResponse (String.toList "hello\nworld") :=
  C7_sanitize_idempotent (String.toList "hello\nworld") (by decide) (by decide) (by decide)

end OutlookResponder
